import Mathlib

/-
  Verification of the mockingbird dubbing pipeline against its
  natural-language specification.

  The definitions below are shallow embeddings of the Python services in
  src/services: times and durations are rationals, file-system and
  subprocess effects are passed in explicitly as oracle parameters, and
  Python exceptions are modelled with Except.
-/

namespace Mockingbird

/-- A timed transcript segment (src/models/core.py, class Segment). -/
structure Segment where
  start_time : ℚ
  end_time : ℚ
  text : String
  speaker_id : Option String := none
  confidence : ℚ := 0
deriving DecidableEq

/-- An audio file with metadata (src/models/core.py, class AudioFile). -/
structure AudioFile where
  path : String
  duration : ℚ
  sample_rate : Nat
  channels : Nat
deriving DecidableEq

/-- The speed-adjustment bounds of ProcessingConfig (src/models/core.py);
the defaults are 0.8 and 1.5. -/
structure SpeedConfig where
  min_speed_adjustment : ℚ := 4/5
  max_speed_adjustment : ℚ := 3/2
deriving DecidableEq

/-- Helper for count_words: counts maximal runs of non-whitespace
characters; the flag records whether the previous character was inside a
word. -/
def count_words_aux : List Char → Bool → Nat
  | [], _ => 0
  | c :: rest, inWord =>
    if c.isWhitespace then count_words_aux rest false
    else (if inWord then 0 else 1) + count_words_aux rest true

/-- Word count of a text, as Python len(text.split()): split on whitespace
runs, dropping empty pieces. -/
def count_words (text : String) : Nat :=
  count_words_aux text.toList false

/-- Estimated natural speech duration in seconds at 150 words per minute,
as computed in both TTS services. -/
def estimated_duration (text : String) : ℚ :=
  ((count_words text : ℚ) / 150) * 60

/-- Clamping of a raw speed factor to the configured bounds, as
max(min_speed_adjustment, min(max_speed_adjustment, x)). -/
def clamp_speed (cfg : SpeedConfig) (x : ℚ) : ℚ :=
  max cfg.min_speed_adjustment (min cfg.max_speed_adjustment x)

/-- TTSService.calculate_speed_adjustment (src/services/tts_service.py,
lines 80-98): guards target_duration ≤ 0 and estimated_duration ≤ 0 with
1.0, otherwise clamps estimated/target. -/
def calculate_speed_adjustment (cfg : SpeedConfig) (text : String)
    (target_duration : ℚ) : ℚ :=
  if target_duration ≤ 0 then 1
  else if estimated_duration text ≤ 0 then 1
  else clamp_speed cfg (estimated_duration text / target_duration)

/-- XTTSService.calculate_speed_adjustment
(src/services/tts_xtts_service.py, lines 180-204): only the
estimated_duration == 0 case is guarded; the division
estimated_duration / target_duration is performed for every other input,
so target_duration == 0 raises ZeroDivisionError in Python, modelled here
as an error value. -/
def xtts_calculate_speed_adjustment (cfg : SpeedConfig) (text : String)
    (target_duration : ℚ) : Except String ℚ :=
  if estimated_duration text = 0 then .ok 1
  else if target_duration = 0 then
    .error "ZeroDivisionError: float division by zero"
  else .ok (clamp_speed cfg (estimated_duration text / target_duration))

theorem estimated_duration_nonneg (text : String) :
    0 ≤ estimated_duration text := by
  unfold estimated_duration
  positivity

theorem clamp_speed_bounds (cfg : SpeedConfig) (x : ℚ)
    (h : cfg.min_speed_adjustment ≤ cfg.max_speed_adjustment) :
    cfg.min_speed_adjustment ≤ clamp_speed cfg x ∧
      clamp_speed cfg x ≤ cfg.max_speed_adjustment := by
  constructor
  · exact le_max_left _ _
  · exact max_le h (min_le_left _ _)

/-- C4: counterexample. XTTSService.calculate_speed_adjustment does not
return 1.0 for target_duration ≤ 0: at target_duration = 0 with the
non-degenerate text "hello" it performs a division by zero (a Python
ZeroDivisionError), and at target_duration = -1 it returns the lower
clamp 0.8 instead of 1.0. -/
theorem xtts_speed_zero_target_counterexample :
    xtts_calculate_speed_adjustment {} "hello" 0 =
      .error "ZeroDivisionError: float division by zero" ∧
    xtts_calculate_speed_adjustment {} "hello" (-1) = .ok (4/5) ∧
    ((4 : ℚ)/5 ≠ 1) := by
  have hw : count_words "hello" = 1 := by decide
  have hest : estimated_duration "hello" = 2/5 := by
    unfold estimated_duration
    rw [hw]
    norm_num
  refine ⟨?_, ?_, by norm_num⟩
  · unfold xtts_calculate_speed_adjustment
    rw [if_neg (by rw [hest]; norm_num), if_pos rfl]
  · unfold xtts_calculate_speed_adjustment
    rw [if_neg (by rw [hest]; norm_num), if_neg (by norm_num)]
    unfold clamp_speed
    rw [hest]
    norm_num

/-- C4 (amended): for configurations whose speed bounds contain 1, the
Edge TTS implementation always returns a value in
[min_speed_adjustment, max_speed_adjustment] and returns exactly 1 in the
degenerate cases target_duration ≤ 0 or estimated_duration ≤ 0; the XTTS
implementation returns a clamped value in bounds for every positive
target_duration but raises ZeroDivisionError when target_duration = 0 and
the estimated duration is nonzero. -/
theorem speed_adjustment_clamped_and_degenerate (cfg : SpeedConfig)
    (text : String) (target_duration : ℚ)
    (hmin : cfg.min_speed_adjustment ≤ 1)
    (hmax : 1 ≤ cfg.max_speed_adjustment) :
    (cfg.min_speed_adjustment ≤ calculate_speed_adjustment cfg text target_duration ∧
      calculate_speed_adjustment cfg text target_duration ≤ cfg.max_speed_adjustment) ∧
    (target_duration ≤ 0 → calculate_speed_adjustment cfg text target_duration = 1) ∧
    (estimated_duration text ≤ 0 →
      calculate_speed_adjustment cfg text target_duration = 1) ∧
    (0 < target_duration →
      ∃ q, xtts_calculate_speed_adjustment cfg text target_duration = .ok q ∧
        cfg.min_speed_adjustment ≤ q ∧ q ≤ cfg.max_speed_adjustment) ∧
    (target_duration = 0 → estimated_duration text ≠ 0 →
      xtts_calculate_speed_adjustment cfg text target_duration =
        .error "ZeroDivisionError: float division by zero") := by
  have hmm : cfg.min_speed_adjustment ≤ cfg.max_speed_adjustment := hmin.trans hmax
  refine ⟨?_, ?_, ?_, ?_, ?_⟩
  · unfold calculate_speed_adjustment
    split
    · exact ⟨hmin, hmax⟩
    · split
      · exact ⟨hmin, hmax⟩
      · exact clamp_speed_bounds cfg _ hmm
  · intro h
    unfold calculate_speed_adjustment
    rw [if_pos h]
  · intro h
    unfold calculate_speed_adjustment
    by_cases ht : target_duration ≤ 0
    · rw [if_pos ht]
    · rw [if_neg ht, if_pos h]
  · intro hpos
    unfold xtts_calculate_speed_adjustment
    split
    · exact ⟨1, rfl, hmin, hmax⟩
    · rw [if_neg (by intro h; rw [h] at hpos; exact lt_irrefl 0 hpos)]
      exact ⟨_, rfl, (clamp_speed_bounds cfg _ hmm).1, (clamp_speed_bounds cfg _ hmm).2⟩
  · intro h0 hne
    unfold xtts_calculate_speed_adjustment
    rw [if_neg hne, if_pos h0]

/-- C4: witness instantiating the amended theorem at the default bounds,
the text "hello world" and targets -3 and 2. -/
theorem speed_adjustment_clamped_and_degenerate_witness :
    calculate_speed_adjustment {} "hello world" (-3) = 1 ∧
    ∃ q, xtts_calculate_speed_adjustment {} "hello world" 2 = .ok q ∧
      ({} : SpeedConfig).min_speed_adjustment ≤ q ∧
        q ≤ ({} : SpeedConfig).max_speed_adjustment := by
  have h1 := speed_adjustment_clamped_and_degenerate ({} : SpeedConfig)
    "hello world" (-3) (by norm_num) (by norm_num)
  have h2 := speed_adjustment_clamped_and_degenerate ({} : SpeedConfig)
    "hello world" 2 (by norm_num) (by norm_num)
  exact ⟨h1.2.1 (by norm_num), h2.2.2.2.1 (by norm_num)⟩

/-- A synthesized clip as produced by DubbingService._generate_tts_segments:
a dict with keys audio_file, start_time, end_time
(src/services/dubbing_service.py, lines 462-466). -/
structure TTSClip where
  audio_file : AudioFile
  start_time : ℚ
  end_time : ℚ
deriving DecidableEq

/-- AudioProcessingService.mix_audio_tracks
(src/services/audio_processing.py, lines 165-259), at the level of control
flow: the missing-file check, the empty-clip short-circuit that returns the
background path unchanged, and the ffmpeg invocation for the non-empty
case abstracted by the runMix oracle. -/
def mix_audio_tracks (fileExists : String → Bool)
    (runMix : Except String Unit) (tempDir original : String)
    (tts_segments : List TTSClip) : Except String String :=
  if fileExists original = false then
    .error ("Original audio file not found: " ++ original)
  else if tts_segments = [] then .ok original
  else
    match runMix with
    | .ok _ => .ok (tempDir ++ "/mixed_audio.wav")
    | .error e => .error ("FFmpeg mixing failed: " ++ e)

/-- C9: for every existing background path, mixing with an empty clip list
returns the background path unchanged and raises no error. -/
theorem mix_empty_clips_identity (fileExists : String → Bool)
    (runMix : Except String Unit) (tempDir original : String)
    (h : fileExists original = true) :
    mix_audio_tracks fileExists runMix tempDir original [] = .ok original := by
  unfold mix_audio_tracks
  rw [h]
  simp

/-- C9: witness at a concrete background path and oracles. -/
theorem mix_empty_clips_identity_witness :
    mix_audio_tracks (fun _ => true) (.ok ()) "/tmp" "background.wav" [] =
      .ok "background.wav" :=
  mix_empty_clips_identity (fun _ => true) (.ok ()) "/tmp" "background.wav" rfl

/-- The speaker-to-voice cache of TTSService (self.speaker_voice_mapping in
src/services/tts_service.py): an insertion-ordered association list. -/
structure EdgeTTSState where
  speaker_voice_mapping : List (String × String)
deriving DecidableEq

/-- First-match lookup in the speaker-to-voice cache, as Python dict
access. -/
def lookup_voice : List (String × String) → String → Option String
  | [], _ => none
  | (k, v) :: rest, s => if k = s then some v else lookup_voice rest s

/-- TTSService.map_speaker_to_voice (src/services/tts_service.py, lines
152-167): returns the cached voice when the speaker is already mapped;
otherwise fetches the available voices for the language (oracle
get_voices, abstracting the network call and the per-language cache),
errors when none are available, selects by hash modulo length (hashFn
abstracts Python hash), and caches the selection. The preferred_gender
argument is accepted and ignored, as in the source. -/
def map_speaker_to_voice (hashFn : String → Nat)
    (get_voices : String → List String) (st : EdgeTTSState)
    (speaker_id language : String) (preferred_gender : Option String) :
    Except String (String × EdgeTTSState) :=
  match lookup_voice st.speaker_voice_mapping speaker_id with
  | some v => .ok (v, st)
  | none =>
    match get_voices language with
    | [] => .error ("No voices available for language: " ++ language)
    | v :: vs =>
      let selected := (v :: vs).getD (hashFn speaker_id % (v :: vs).length) v
      .ok (selected, ⟨(speaker_id, selected) :: st.speaker_voice_mapping⟩)

/-- C10: once a call to map_speaker_to_voice has returned a voice for a
speaker, every later call for the same speaker on the resulting state
returns the same voice and leaves the state unchanged, for any hash
function, voice list, language and preferred gender of the later call. -/
theorem map_speaker_to_voice_stable (h1 h2 : String → Nat)
    (f1 f2 : String → List String) (st st1 : EdgeTTSState)
    (speaker lang1 lang2 : String) (g1 g2 : Option String) (v : String)
    (hfirst : map_speaker_to_voice h1 f1 st speaker lang1 g1 = .ok (v, st1)) :
    map_speaker_to_voice h2 f2 st1 speaker lang2 g2 = .ok (v, st1) := by
  unfold map_speaker_to_voice at hfirst ⊢
  cases hl : lookup_voice st.speaker_voice_mapping speaker with
  | some w =>
    rw [hl] at hfirst
    simp only [Except.ok.injEq, Prod.mk.injEq] at hfirst
    obtain ⟨hv, hst⟩ := hfirst
    subst hv
    subst hst
    rw [hl]
  | none =>
    rw [hl] at hfirst
    cases hf : f1 lang1 with
    | nil =>
      rw [hf] at hfirst
      exact absurd hfirst (by simp)
    | cons a as =>
      rw [hf] at hfirst
      simp only [Except.ok.injEq, Prod.mk.injEq] at hfirst
      obtain ⟨hv, hst⟩ := hfirst
      rw [hv] at hst
      rw [← hst]
      have hlookup : lookup_voice ((speaker, v) :: st.speaker_voice_mapping)
          speaker = some v := by
        unfold lookup_voice
        rw [if_pos rfl]
      dsimp only
      rw [hlookup]

/-- C10: witness — a second call with a different language, hash function,
voice list and preferred gender still returns the voice cached by the
first call. -/
theorem map_speaker_to_voice_stable_witness :
    map_speaker_to_voice (fun _ => 1) (fun _ => []) ⟨[("s1", "en-US-AriaNeural")]⟩
      "s1" "fr" (some "female") = .ok ("en-US-AriaNeural", ⟨[("s1", "en-US-AriaNeural")]⟩) :=
  map_speaker_to_voice_stable (fun _ => 0) (fun _ => 1)
    (fun _ => ["en-US-AriaNeural"]) (fun _ => []) ⟨[]⟩
    ⟨[("s1", "en-US-AriaNeural")]⟩ "s1" "en" "fr" none (some "female")
    "en-US-AriaNeural" rfl

/-- A speech time window, as the dicts with start_time and end_time built
in DubbingService._prepare_background_audio (lines 229-232). -/
structure SpeechWindow where
  start_time : ℚ
  end_time : ℚ
deriving DecidableEq

/-- The ffmpeg expression between(t, a, b): 1 when a ≤ t ≤ b, else 0. -/
def between_expr (t a b : ℚ) : ℚ := if a ≤ t ∧ t ≤ b then 1 else 0

/-- The clamp applied by AudioProcessingService.apply_volume_ducking to
its ducking_level argument: max(0.0, min(1.0, level))
(src/services/audio_processing.py, line 295). -/
def clamp_ducking_level (level : ℚ) : ℚ := max 0 (min 1 level)

/-- The enable expression of the volume filter: the sum of between terms
over all speech windows (lines 297-305). -/
def enable_sum (windows : List SpeechWindow) (t : ℚ) : ℚ :=
  (windows.map (fun w => between_expr t w.start_time w.end_time)).sum

/-- The pointwise meaning of the volume filter built at line 310:
volume = if(gt(enable, 0), clamped level, 1.0) at time t. -/
def ducked_volume_at (windows : List SpeechWindow) (level t : ℚ) : ℚ :=
  if 0 < enable_sum windows t then clamp_ducking_level level else 1

/-- The constant -20.0 that DubbingService._prepare_background_audio
passes to apply_volume_ducking as ducking_level_db (line 235). -/
def ducking_level_db : ℚ := -20

theorem between_expr_nonneg (t a b : ℚ) : 0 ≤ between_expr t a b := by
  unfold between_expr
  split <;> norm_num

theorem enable_sum_pos_iff (windows : List SpeechWindow) (t : ℚ) :
    0 < enable_sum windows t ↔
      ∃ w ∈ windows, w.start_time ≤ t ∧ t ≤ w.end_time := by
  induction windows with
  | nil => simp [enable_sum]
  | cons w ws ih =>
    unfold enable_sum at ih ⊢
    simp only [List.map_cons, List.sum_cons]
    constructor
    · intro h
      by_cases hw : w.start_time ≤ t ∧ t ≤ w.end_time
      · exact ⟨w, List.mem_cons_self w ws, hw⟩
      · have hz : between_expr t w.start_time w.end_time = 0 := by
          unfold between_expr
          rw [if_neg hw]
        rw [hz, zero_add] at h
        obtain ⟨x, hx, hxx⟩ := ih.mp h
        exact ⟨x, List.mem_cons_of_mem w hx, hxx⟩
    · rintro ⟨x, hx, hxx⟩
      rcases List.mem_cons.mp hx with hxw | hxs
      · subst hxw
        have hone : between_expr t x.start_time x.end_time = 1 := by
          unfold between_expr
          rw [if_pos hxx]
        rw [hone]
        have : 0 ≤ (ws.map (fun w => between_expr t w.start_time w.end_time)).sum :=
          List.sum_nonneg (by
            intro q hq
            obtain ⟨y, _, hy⟩ := List.mem_map.mp hq
            rw [← hy]
            exact between_expr_nonneg t y.start_time y.end_time)
        linarith

      · have hpos : 0 < (ws.map (fun w => between_expr t w.start_time w.end_time)).sum :=
          ih.mpr ⟨x, hxs, hxx⟩
        have := between_expr_nonneg t w.start_time w.end_time
        linarith

/-- C2: counterexample. The prepared attenuation is not a uniform -20 dB
reduction of the entire track: with one speech window (0, 1), the volume
factor at t = 2 is 1 (no attenuation outside the window) and at t = 1/2 it
is 0 (the -20.0 passed as a linear level is clamped to 0), neither of
which is the claimed uniform factor of about 1/10. -/
theorem ducking_not_uniform_counterexample :
    ducked_volume_at [⟨0, 1⟩] ducking_level_db 2 = 1 ∧
    ducked_volume_at [⟨0, 1⟩] ducking_level_db (1/2) = 0 ∧
    (1 : ℚ) ≠ 1/10 ∧ (0 : ℚ) ≠ 1/10 := by
  refine ⟨?_, ?_, by norm_num, by norm_num⟩
  · unfold ducked_volume_at
    rw [if_neg]
    rw [enable_sum_pos_iff]
    rintro ⟨w, hw, h1, h2⟩
    simp only [List.mem_singleton] at hw
    subst hw
    norm_num at h2
  · unfold ducked_volume_at
    rw [if_pos, clamp_ducking_level, ducking_level_db]
    · norm_num
    · rw [enable_sum_pos_iff]
      exact ⟨⟨0, 1⟩, List.mem_singleton_self _, by norm_num, by norm_num⟩

/-- C2 (amended): the ducked-mode attenuation built by
_prepare_background_audio is time-windowed, not uniform: at every time
inside some TTS speech window the volume factor is the clamp of the
passed level -20.0, which is 0, and at every time outside all windows the
factor is 1 (original volume). -/
theorem ducking_windowed_attenuation (windows : List SpeechWindow) (t : ℚ) :
    clamp_ducking_level ducking_level_db = 0 ∧
    ((∃ w ∈ windows, w.start_time ≤ t ∧ t ≤ w.end_time) →
      ducked_volume_at windows ducking_level_db t = 0) ∧
    ((∀ w ∈ windows, ¬ (w.start_time ≤ t ∧ t ≤ w.end_time)) →
      ducked_volume_at windows ducking_level_db t = 1) := by
  have hc : clamp_ducking_level ducking_level_db = 0 := by
    unfold clamp_ducking_level ducking_level_db
    norm_num
  refine ⟨hc, ?_, ?_⟩
  · intro h
    unfold ducked_volume_at
    rw [if_pos ((enable_sum_pos_iff windows t).mpr h), hc]
  · intro h
    unfold ducked_volume_at
    rw [if_neg]
    intro hpos
    obtain ⟨w, hw, hww⟩ := (enable_sum_pos_iff windows t).mp hpos
    exact h w hw hww

/-- C2: witness at a concrete window list, inside and outside times. -/
theorem ducking_windowed_attenuation_witness :
    ducked_volume_at [⟨1, 3⟩] ducking_level_db 2 = 0 ∧
    ducked_volume_at [⟨1, 3⟩] ducking_level_db 5 = 1 := by
  refine ⟨?_, ?_⟩
  · exact (ducking_windowed_attenuation [⟨1, 3⟩] 2).2.1
      ⟨⟨1, 3⟩, List.mem_singleton_self _, by norm_num, by norm_num⟩
  · refine (ducking_windowed_attenuation [⟨1, 3⟩] 5).2.2 ?_
    intro w hw
    simp only [List.mem_singleton] at hw
    subst hw
    rintro ⟨h1, h2⟩
    norm_num at h2

/-- AudioProcessingService.apply_volume_ducking
(src/services/audio_processing.py, lines 261-331) at the level of control
flow: missing-file error, empty-window short-circuit returning the
background unchanged, and the ffmpeg run (duckRun oracle); a failed run
raises RuntimeError, re-wrapped by the outer except clause. The level
argument only shapes the filter string, modelled separately by
ducked_volume_at. -/
def apply_volume_ducking (fileExists : String → Bool)
    (duckRun : Except String Unit) (tempDir background : String)
    (speech_segments : List SpeechWindow) (level : ℚ) :
    Except String String :=
  if fileExists background = false then
    .error ("Background audio file not found: " ++ background)
  else if speech_segments = [] then .ok background
  else
    match duckRun, level with
    | .ok _, _ => .ok (tempDir ++ "/ducked_audio.wav")
    | .error e, _ => .error ("Volume ducking failed: FFmpeg ducking failed: " ++ e)

/-- The configuration fields consumed by
DubbingService._prepare_background_audio. -/
structure PrepConfig where
  background_preservation_mode : String
  use_serial_separation : Bool
deriving DecidableEq

/-- The separation collaborator as seen by _prepare_background_audio:
available is false when constructing AudioSeparatorService raises
ImportError; the two result fields are the outcomes of
separate_audio_serial and remove_vocals. -/
structure SeparatorEnv where
  available : Bool
  serial_result : Except String String
  single_result : Except String String

/-- The separation call chosen at lines 196-212: serial when configured,
single-model otherwise. -/
def separation_result (cfg : PrepConfig) (sep : SeparatorEnv) :
    Except String String :=
  if cfg.use_serial_separation then sep.serial_result else sep.single_result

/-- The ducking path of _prepare_background_audio (lines 226-242): builds
the speech windows from the TTS segments and ducks the original track at
the hard-coded level -20.0; the first component of the result records the
value of the local mode variable at return. -/
def ducked_background (fileExists : String → Bool)
    (duckRun : Except String Unit) (tempDir originalPath : String)
    (tts_segments : List TTSClip) : Except String (String × String) :=
  (apply_volume_ducking fileExists duckRun tempDir originalPath
      (tts_segments.map fun c => ⟨c.start_time, c.end_time⟩)
      ducking_level_db).map (fun p => ("ducking", p))

/-- DubbingService._prepare_background_audio
(src/services/dubbing_service.py, lines 159-242): separator mode falls
back to the ducking path when the separator cannot be constructed
(ImportError) or when the separation call raises. -/
def prepare_background (cfg : PrepConfig) (sep : SeparatorEnv)
    (fileExists : String → Bool) (duckRun : Except String Unit)
    (tempDir originalPath : String) (tts_segments : List TTSClip) :
    Except String (String × String) :=
  if cfg.background_preservation_mode = "separator" then
    if sep.available then
      match separation_result cfg sep with
      | .ok bg => .ok ("separator", bg)
      | .error _ =>
        ducked_background fileExists duckRun tempDir originalPath tts_segments
    else ducked_background fileExists duckRun tempDir originalPath tts_segments
  else ducked_background fileExists duckRun tempDir originalPath tts_segments

/-- C5: when the separator collaborator is unavailable (import failure) or
its separation call raises, background preparation returns exactly the
ducking-path result — the job does not fail on account of the separation
failure — and when the ducking run itself succeeds the returned background
is the ducked track, tagged with mode "ducking". -/
theorem separation_failure_downgrades_to_ducking (cfg : PrepConfig)
    (sep : SeparatorEnv) (fileExists : String → Bool)
    (duckRun : Except String Unit) (tempDir originalPath : String)
    (tts_segments : List TTSClip)
    (hmode : cfg.background_preservation_mode = "separator")
    (hfail : sep.available = false ∨ ∃ e, separation_result cfg sep = .error e) :
    prepare_background cfg sep fileExists duckRun tempDir originalPath
        tts_segments =
      ducked_background fileExists duckRun tempDir originalPath tts_segments ∧
    (fileExists originalPath = true → duckRun = .ok () → tts_segments ≠ [] →
      prepare_background cfg sep fileExists duckRun tempDir originalPath
          tts_segments = .ok ("ducking", tempDir ++ "/ducked_audio.wav")) := by
  have hduck : prepare_background cfg sep fileExists duckRun tempDir
      originalPath tts_segments =
      ducked_background fileExists duckRun tempDir originalPath tts_segments := by
    unfold prepare_background
    rw [if_pos hmode]
    cases hav : sep.available with
    | false => simp
    | true =>
      rcases hfail with hfa | ⟨e, he⟩
      · rw [hfa] at hav
        cases hav
      · rw [he]
        simp
  refine ⟨hduck, ?_⟩
  intro hex hdu hne
  have hwind : (tts_segments.map fun c =>
      (⟨c.start_time, c.end_time⟩ : SpeechWindow)) ≠ [] := by
    intro h
    exact hne (List.map_eq_nil_iff.mp h)
  rw [hduck]
  unfold ducked_background apply_volume_ducking
  rw [hex, hdu]
  rw [if_neg (by simp), if_neg hwind]
  rfl

/-- C5: witness — separator mode with a failing separation call, an
existing original track and a successful ducking run. -/
theorem separation_failure_downgrades_to_ducking_witness :
    prepare_background ⟨"separator", false⟩
      ⟨true, .ok "serial.wav", .error "separation failed"⟩ (fun _ => true)
      (.ok ()) "/tmp" "orig.wav" [⟨⟨"clip0.wav", 1, 22050, 1⟩, 0, 1⟩] =
      .ok ("ducking", "/tmp/ducked_audio.wav") :=
  (separation_failure_downgrades_to_ducking ⟨"separator", false⟩
      ⟨true, .ok "serial.wav", .error "separation failed"⟩ (fun _ => true)
      (.ok ()) "/tmp" "orig.wav" [⟨⟨"clip0.wav", 1, 22050, 1⟩, 0, 1⟩] rfl
      (Or.inr ⟨"separation failed", rfl⟩)).2 rfl rfl (List.cons_ne_nil _ _)

/-- Python truthiness of `not text or not text.strip()`: the text is empty
or consists of whitespace only. -/
def is_blank (text : String) : Bool := text.toList.all Char.isWhitespace

/-- The collaborators and state seen by
DubbingService._generate_tts_segments: the voice-cloning flag, the set of
speaker ids with a curated sample (tts_service.speaker_samples), the speed
calculator and the synthesis call (tts_service.generate_speech). -/
structure SynthEnv where
  use_voice_cloning : Bool
  speaker_samples : List String
  calc_speed : String → ℚ → ℚ
  synth : Segment → String → ℚ → Except String AudioFile

/-- One synthesis attempt (lines 454-470): a successful call appends a
clip dict; an exception skips the segment. -/
def try_synth (env : SynthEnv) (seg : Segment) (voice : String)
    (speed : ℚ) : Option TTSClip :=
  match env.synth seg voice speed with
  | .ok af => some ⟨af, seg.start_time, seg.end_time⟩
  | .error _ => none

/-- Voice resolution under cloning (lines 440-446): the segment speaker id
(default "speaker_0"), replaced by "speaker_0" when it has no sample. -/
def resolve_clone_voice (samples : List String) (seg : Segment) : String :=
  if samples.contains (seg.speaker_id.getD "speaker_0") then
    seg.speaker_id.getD "speaker_0"
  else "speaker_0"

/-- The per-segment body of the loop in _generate_tts_segments
(src/services/dubbing_service.py, lines 418-470): skip on blank text; under
cloning, skip when even the resolved fallback slot has no sample; then one
synthesis attempt. -/
def process_segment (env : SynthEnv) (voice : String) (seg : Segment) :
    Option TTSClip :=
  if is_blank seg.text then none
  else if env.use_voice_cloning then
    if env.speaker_samples.contains (resolve_clone_voice env.speaker_samples seg) then
      try_synth env seg (resolve_clone_voice env.speaker_samples seg)
        (env.calc_speed seg.text (seg.end_time - seg.start_time))
    else none
  else try_synth env seg voice (env.calc_speed seg.text (seg.end_time - seg.start_time))

/-- The segment loop of _generate_tts_segments: collected clips in order,
and the skipped_count. -/
def generate_tts_loop (env : SynthEnv) (voice : String) :
    List Segment → List TTSClip × Nat
  | [] => ([], 0)
  | seg :: rest =>
    match process_segment env voice seg with
    | some clip =>
      ((clip :: (generate_tts_loop env voice rest).1),
        (generate_tts_loop env voice rest).2)
    | none =>
      ((generate_tts_loop env voice rest).1,
        (generate_tts_loop env voice rest).2 + 1)

/-- The error message raised at line 476 when no clip was produced. -/
def no_usable_segments_msg : String :=
  "No valid TTS segments were generated. Check that segments have non-empty text and voice samples are set."

/-- DubbingService._generate_tts_segments (lines 398-478): runs the loop
and raises the no-usable-segments error exactly when the clip list is
empty. -/
def generate_tts_segments (env : SynthEnv) (voice : String)
    (segments : List Segment) : Except String (List TTSClip) :=
  if (generate_tts_loop env voice segments).1 = [] then
    .error no_usable_segments_msg
  else .ok (generate_tts_loop env voice segments).1

theorem generate_tts_loop_spec (env : SynthEnv) (voice : String)
    (segments : List Segment) :
    (generate_tts_loop env voice segments).1 =
      segments.filterMap (process_segment env voice) ∧
    (generate_tts_loop env voice segments).2 =
      (segments.filter (fun s => process_segment env voice s = none)).length := by
  induction segments with
  | nil => exact ⟨rfl, rfl⟩
  | cons seg rest ih =>
    unfold generate_tts_loop
    cases hp : process_segment env voice seg with
    | some clip =>
      simp only [List.filterMap_cons, List.filter_cons, hp]
      rw [if_neg (by simp)]
      exact ⟨by rw [ih.1], by rw [ih.2]⟩
    | none =>
      simp only [List.filterMap_cons, List.filter_cons, hp]
      rw [if_pos (by simp)]
      exact ⟨by rw [ih.1], by rw [ih.2, List.length_cons]⟩

/-- C1: the skip-do-not-abort policy of speech synthesis. The call fails
with the no-usable-segments error exactly when zero clips were produced;
a success returns the per-segment results in order, so a skip affects only
its own segment; a blank segment is always skipped without error; under
voice cloning a speaker with no curated sample falls back to the
"speaker_0" slot and is skipped only when that slot is also missing; and a
synthesis exception turns into a per-segment skip. -/
theorem generate_tts_segments_skip_policy (env : SynthEnv) (voice : String)
    (segments : List Segment) :
    (generate_tts_segments env voice segments = .error no_usable_segments_msg ↔
      segments.filterMap (process_segment env voice) = []) ∧
    (∀ clips, generate_tts_segments env voice segments = .ok clips →
      clips = segments.filterMap (process_segment env voice)) ∧
    (∀ seg : Segment, is_blank seg.text = true →
      process_segment env voice seg = none) ∧
    (∀ seg : Segment, is_blank seg.text = false →
      env.use_voice_cloning = true →
      env.speaker_samples.contains (seg.speaker_id.getD "speaker_0") = false →
      ((env.speaker_samples.contains "speaker_0" = false →
          process_segment env voice seg = none) ∧
        (env.speaker_samples.contains "speaker_0" = true →
          process_segment env voice seg =
            try_synth env seg "speaker_0"
              (env.calc_speed seg.text (seg.end_time - seg.start_time))))) ∧
    (∀ (seg : Segment) (v : String) (sp : ℚ) (e : String),
      env.synth seg v sp = .error e → try_synth env seg v sp = none) := by
  have hloop := generate_tts_loop_spec env voice segments
  refine ⟨?_, ?_, ?_, ?_, ?_⟩
  · unfold generate_tts_segments
    rw [hloop.1]
    by_cases hc : segments.filterMap (process_segment env voice) = []
    · rw [if_pos hc]
      exact ⟨fun _ => hc, fun _ => rfl⟩
    · rw [if_neg hc]
      exact ⟨fun h => absurd h (by simp), fun h => absurd h hc⟩
  · intro clips hok
    unfold generate_tts_segments at hok
    rw [hloop.1] at hok
    by_cases hc : segments.filterMap (process_segment env voice) = []
    · rw [if_pos hc] at hok
      exact absurd hok (by simp)
    · rw [if_neg hc] at hok
      simp only [Except.ok.injEq] at hok
      exact hok.symm
  · intro seg hb
    unfold process_segment
    rw [hb]
    simp
  · intro seg hb hclone hmiss
    have hres : resolve_clone_voice env.speaker_samples seg = "speaker_0" := by
      unfold resolve_clone_voice
      rw [if_neg (by rw [hmiss]; exact Bool.false_ne_true)]
    constructor
    · intro h0
      unfold process_segment
      rw [hb, hclone, hres, h0]
      simp
    · intro h0
      unfold process_segment
      rw [hb, hclone, hres, h0]
      simp
  · intro seg v sp e he
    unfold try_synth
    rw [he]

/-- C1: witness — a single whitespace-only segment is skipped and the
whole call reports the no-usable-segments error. -/
theorem generate_tts_segments_skip_policy_witness :
    generate_tts_segments
      ⟨true, ["speaker_0"], fun _ _ => 1, fun seg _ _ =>
        .ok ⟨"clip.wav", seg.end_time - seg.start_time, 22050, 1⟩⟩
      "en-US-AriaNeural" [⟨0, 1, "  ", some "alice", 0⟩] =
      .error no_usable_segments_msg :=
  (generate_tts_segments_skip_policy
      ⟨true, ["speaker_0"], fun _ _ => 1, fun seg _ _ =>
        .ok ⟨"clip.wav", seg.end_time - seg.start_time, 22050, 1⟩⟩
      "en-US-AriaNeural" [⟨0, 1, "  ", some "alice", 0⟩]).1.mpr rfl

/-- A slice extracted by DubbingService._combine_speaker_segments: the
ffmpeg call at lines 341-348 cuts from the segment start for the capped
length. -/
structure SampleSlice where
  slice_start : ℚ
  slice_len : ℚ
deriving DecidableEq

/-- Stable insertion of a segment after all earlier-or-equal start times,
modelling the stable Python sorted with key start_time. -/
def insert_sorted (seg : Segment) : List Segment → List Segment
  | [] => [seg]
  | s :: rest =>
    if s.start_time ≤ seg.start_time then s :: insert_sorted seg rest
    else seg :: s :: rest

/-- sorted(segments, key=lambda s: s.start_time) at line 327. -/
def sort_by_start (segs : List Segment) : List Segment :=
  segs.foldl (fun acc s => insert_sorted s acc) []

/-- Sum of the segment durations of a list. -/
def total_duration (segs : List Segment) : ℚ :=
  (segs.map (fun s => s.end_time - s.start_time)).sum

/-- The extraction loop of _combine_speaker_segments (lines 330-353):
break once the accumulated duration reaches the target; otherwise cut a
slice capped to the remaining duration needed; a failed ffmpeg extraction
(extractOk false) drops the slice without accumulating. -/
def combine_loop (extractOk : Segment → Bool) (target : ℚ) :
    List Segment → ℚ → List SampleSlice × ℚ
  | [], acc => ([], acc)
  | seg :: rest, acc =>
    if target ≤ acc then ([], acc)
    else if extractOk seg then
      ((⟨seg.start_time, min (seg.end_time - seg.start_time) (target - acc)⟩ ::
          (combine_loop extractOk target rest
            (acc + min (seg.end_time - seg.start_time) (target - acc))).1),
        (combine_loop extractOk target rest
          (acc + min (seg.end_time - seg.start_time) (target - acc))).2)
    else combine_loop extractOk target rest acc

/-- DubbingService._combine_speaker_segments
(src/services/dubbing_service.py, lines 307-396): sorts the speaker
segments by start time, runs the slice-extraction loop from zero
accumulated duration, raises only when no slice at all was extracted, and
otherwise returns the concatenation (its slices and accumulated duration)
even when the accumulated duration is below the target. -/
def combine_speaker_segments (extractOk : Segment → Bool)
    (segments : List Segment) (target_duration : ℚ) :
    Except String (List SampleSlice × ℚ) :=
  if (combine_loop extractOk target_duration (sort_by_start segments) 0).1 = [] then
    .error "No valid segments found to combine"
  else .ok (combine_loop extractOk target_duration (sort_by_start segments) 0)

theorem insert_sorted_perm (seg : Segment) (l : List Segment) :
    (insert_sorted seg l).Perm (seg :: l) := by
  induction l with
  | nil => exact List.Perm.refl _
  | cons s rest ih =>
    unfold insert_sorted
    split
    · exact (ih.cons s).trans (List.Perm.swap seg s rest)
    · exact List.Perm.refl _

theorem sort_by_start_perm (segs : List Segment) :
    (sort_by_start segs).Perm segs := by
  suffices h : ∀ (l acc : List Segment),
      (l.foldl (fun acc s => insert_sorted s acc) acc).Perm (acc ++ l) by
    simpa using h segs []
  intro l
  induction l with
  | nil => intro acc; simp
  | cons s rest ih =>
    intro acc
    simp only [List.foldl_cons]
    refine (ih (insert_sorted s acc)).trans ?_
    have h1 : (insert_sorted s acc ++ rest).Perm ((s :: acc) ++ rest) :=
      (insert_sorted_perm s acc).append_right rest
    refine h1.trans ?_
    simp only [List.cons_append]
    exact (List.perm_middle).symm

theorem total_duration_nonneg (segs : List Segment)
    (hd : ∀ s ∈ segs, 0 ≤ s.end_time - s.start_time) :
    0 ≤ total_duration segs := by
  refine List.sum_nonneg ?_
  intro q hq
  obtain ⟨s, hs, hsq⟩ := List.mem_map.mp hq
  rw [← hsq]
  exact hd s hs

theorem combine_loop_acc (target : ℚ) (segs : List Segment) (acc : ℚ)
    (hacc : acc ≤ target)
    (hd : ∀ s ∈ segs, 0 ≤ s.end_time - s.start_time) :
    (combine_loop (fun _ => true) target segs acc).2 =
      min target (acc + total_duration segs) := by
  induction segs generalizing acc with
  | nil =>
    unfold combine_loop total_duration
    simp only [List.map_nil, List.sum_nil, add_zero]
    exact (min_eq_right hacc).symm
  | cons seg rest ih =>
    have hdr : ∀ s ∈ rest, 0 ≤ s.end_time - s.start_time := by
      intro s hs
      exact hd s (List.mem_cons_of_mem seg hs)
    have hds : 0 ≤ seg.end_time - seg.start_time :=
      hd seg (List.mem_cons_self seg rest)
    have htot : total_duration (seg :: rest) =
        (seg.end_time - seg.start_time) + total_duration rest := by
      unfold total_duration
      simp
    unfold combine_loop
    by_cases ht : target ≤ acc
    · rw [if_pos ht]
      have heq : acc = target := le_antisymm hacc ht
      subst heq
      rw [htot]
      have hnn : 0 ≤ (seg.end_time - seg.start_time) + total_duration rest :=
        add_nonneg hds (total_duration_nonneg rest hdr)
      exact (min_eq_left (le_add_of_nonneg_right hnn)).symm
    · rw [if_neg ht, if_pos rfl]
      dsimp only
      rcases le_total (seg.end_time - seg.start_time) (target - acc) with hle | hge
      · have hmin : min (seg.end_time - seg.start_time) (target - acc) =
            seg.end_time - seg.start_time := min_eq_left hle
        rw [hmin]
        have hacc2 : acc + (seg.end_time - seg.start_time) ≤ target := by
          linarith
        rw [ih (acc + (seg.end_time - seg.start_time)) hacc2 hdr, htot]
        ring_nf
      · have hmin : min (seg.end_time - seg.start_time) (target - acc) =
            target - acc := min_eq_right hge
        rw [hmin]
        have hacc2 : acc + (target - acc) ≤ target := by linarith
        rw [ih (acc + (target - acc)) hacc2 hdr, htot]
        have h1 : acc + (target - acc) = target := by ring
        rw [h1]
        have h2 : target + total_duration rest ≥ target :=
          le_add_of_nonneg_right (total_duration_nonneg rest hdr)
        rw [min_eq_left h2]
        have h3 : target ≤ acc + (seg.end_time - seg.start_time + total_duration rest) := by
          have := total_duration_nonneg rest hdr
          linarith
        rw [min_eq_left h3]

theorem combine_loop_nil_iff (target : ℚ) (segs : List Segment) (acc : ℚ)
    (hlt : acc < target) :
    (combine_loop (fun _ => true) target segs acc).1 = [] ↔ segs = [] := by
  cases segs with
  | nil => simp [combine_loop]
  | cons seg rest =>
    unfold combine_loop
    rw [if_neg (not_le.mpr hlt), if_pos rfl]
    simp

/-- C3: counterexample. A speaker with a single 3-second segment and
min_sample_duration 6 exhausts the segment list with only 3 seconds
accumulated, yet _combine_speaker_segments returns the short sample as a
success instead of an insufficient-material error. -/
theorem combine_segments_short_sample_counterexample :
    combine_speaker_segments (fun _ => true) [⟨0, 3, "hi", some "s1", 0⟩] 6 =
      .ok ([⟨0, 3⟩], 3) ∧ (3 : ℚ) < 6 := by
  have hloop : combine_loop (fun _ => true) 6
      [(⟨0, 3, "hi", some "s1", 0⟩ : Segment)] 0 = ([⟨0, 3⟩], 3) := by
    unfold combine_loop
    rw [if_neg (by norm_num), if_pos rfl]
    unfold combine_loop
    dsimp only
    norm_num
  constructor
  · unfold combine_speaker_segments
    have hsort : sort_by_start [(⟨0, 3, "hi", some "s1", 0⟩ : Segment)] =
        [⟨0, 3, "hi", some "s1", 0⟩] := rfl
    rw [hsort, hloop]
    rw [if_neg (by simp)]
  · norm_num

/-- C3 (amended): with extraction succeeding, voice-sample combination
takes capped slices from the segments sorted by start time and returns an
error only when the segment list is empty; on success the accumulated
duration is min(target, total material), so when the total material falls
short of min_sample_duration the call still returns the too-short sample
as a success rather than an insufficiency error. -/
theorem combine_segments_saturating_accumulation (segments : List Segment)
    (target_duration : ℚ) (hpos : 0 < target_duration)
    (hd : ∀ s ∈ segments, 0 ≤ s.end_time - s.start_time) :
    (combine_speaker_segments (fun _ => true) segments target_duration =
        .error "No valid segments found to combine" ↔ segments = []) ∧
    (∀ slices acc,
      combine_speaker_segments (fun _ => true) segments target_duration =
        .ok (slices, acc) →
      acc = min target_duration (total_duration segments)) := by
  have hperm := sort_by_start_perm segments
  have hd2 : ∀ s ∈ sort_by_start segments, 0 ≤ s.end_time - s.start_time := by
    intro s hs
    exact hd s (hperm.mem_iff.mp hs)
  have hsum : total_duration (sort_by_start segments) =
      total_duration segments := by
    unfold total_duration
    exact (hperm.map _).sum_eq
  have hacc := combine_loop_acc target_duration (sort_by_start segments) 0
    (le_of_lt hpos) hd2
  have hnil := combine_loop_nil_iff target_duration (sort_by_start segments) 0 hpos
  constructor
  · unfold combine_speaker_segments
    by_cases hc : (combine_loop (fun _ => true) target_duration
        (sort_by_start segments) 0).1 = []
    · rw [if_pos hc]
      constructor
      · intro _
        have hs0 : sort_by_start segments = [] := hnil.mp hc
        rw [hs0] at hperm
        exact hperm.symm.eq_nil
      · intro _
        rfl
    · rw [if_neg hc]
      constructor
      · intro h
        exact absurd h (by simp)
      · intro h
        exfalso
        apply hc
        rw [hnil, h]
        rfl
  · intro slices acc hok
    unfold combine_speaker_segments at hok
    by_cases hc : (combine_loop (fun _ => true) target_duration
        (sort_by_start segments) 0).1 = []
    · rw [if_pos hc] at hok
      exact absurd hok (by simp)
    · rw [if_neg hc] at hok
      simp only [Except.ok.injEq] at hok
      have h2 : acc = min target_duration
          (0 + total_duration (sort_by_start segments)) := by
        rw [← hacc, hok]
      rw [zero_add, hsum] at h2
      exact h2

/-- C3: witness — the empty segment list is the only all-extractions-ok
input yielding the error, and it does. -/
theorem combine_segments_saturating_accumulation_witness :
    combine_speaker_segments (fun _ => true) ([] : List Segment) 6 =
      .error "No valid segments found to combine" :=
  (combine_segments_saturating_accumulation [] 6 (by norm_num)
    (by intro s hs; cases hs)).1.mpr rfl

/-- A diarization turn: a timed span with a speaker label, as yielded by
itertracks in chronological order (src/services/asr_service.py, line 256). -/
structure DiarizationTurn where
  turn_start : ℚ
  turn_end : ℚ
  speaker_label : String
deriving DecidableEq

/-- max on ℚ written with an explicit comparison, so that terms evaluate
inside the kernel. -/
def qmax (a b : ℚ) : ℚ := if a ≤ b then b else a

/-- min on ℚ written with an explicit comparison. -/
def qmin (a b : ℚ) : ℚ := if a ≤ b then a else b

theorem qmax_eq_max (a b : ℚ) : qmax a b = max a b := by
  simp only [qmax, max_def]

theorem qmin_eq_min (a b : ℚ) : qmin a b = min a b := by
  simp only [qmin, min_def]

/-- The overlap a turn contributes to a segment:
max(0, min(turn.end, seg.end) - max(turn.start, seg.start))
(asr_service.py, lines 258-260). -/
def turn_overlap (t : DiarizationTurn) (seg_start seg_end : ℚ) : ℚ :=
  qmax 0 (qmin t.turn_end seg_end - qmax t.turn_start seg_start)

theorem turn_overlap_eq (t : DiarizationTurn) (seg_start seg_end : ℚ) :
    turn_overlap t seg_start seg_end =
      max 0 (min t.turn_end seg_end - max t.turn_start seg_start) := by
  unfold turn_overlap
  rw [qmax_eq_max, qmin_eq_min, qmax_eq_max]

/-- speaker_durations[speaker] = speaker_durations.get(speaker, 0) + d on
an insertion-ordered association list, as a Python dict update. -/
def add_duration : List (String × ℚ) → String → ℚ → List (String × ℚ)
  | [], label, d => [(label, d)]
  | (l, v) :: rest, label, d =>
    if l = label then (l, v + d) :: rest
    else (l, v) :: add_duration rest label d

/-- One iteration of the accumulation loop at lines 256-262: only strictly
positive overlaps are added. -/
def duration_step (seg_start seg_end : ℚ) (acc : List (String × ℚ))
    (t : DiarizationTurn) : List (String × ℚ) :=
  if 0 < turn_overlap t seg_start seg_end then
    add_duration acc t.speaker_label (turn_overlap t seg_start seg_end)
  else acc

/-- The speaker_durations dict after the loop over all turns. -/
def speaker_durations (turns : List DiarizationTurn) (seg_start seg_end : ℚ) :
    List (String × ℚ) :=
  turns.foldl (duration_step seg_start seg_end) []

/-- One step of Python max(items, key=value): the current best is replaced
only on a strictly larger value, so the first maximum in iteration order
wins. -/
def pick_max (best : Option (String × ℚ)) (p : String × ℚ) :
    Option (String × ℚ) :=
  match best with
  | none => some p
  | some b => if b.2 < p.2 then some p else some b

/-- max(speaker_durations.items(), key=lambda x: x[1]) over the insertion
order of the dict. -/
def first_max_label (l : List (String × ℚ)) : Option (String × ℚ) :=
  l.foldl pick_max none

/-- The speaker-matching block of ASRService.transcribe (lines 246-265):
the label of maximal accumulated overlap, none when no turn overlaps. -/
def match_speaker (turns : List DiarizationTurn) (seg_start seg_end : ℚ) :
    Option String :=
  (first_max_label (speaker_durations turns seg_start seg_end)).map Prod.fst

/-- The matcher including diarization availability: none when diarization
is unavailable or failed (diarization is None in the source). -/
def match_speaker_opt :
    Option (List DiarizationTurn) → ℚ → ℚ → Option String
  | none, _, _ => none
  | some turns, s, e => match_speaker turns s e

/-- The total overlap a label accumulates over a turn list. -/
def total_overlap : List DiarizationTurn → String → ℚ → ℚ → ℚ
  | [], _, _, _ => 0
  | t :: rest, label, s, e =>
    (if t.speaker_label = label then turn_overlap t s e else 0) +
      total_overlap rest label s e

/-- Association-list access with default 0, as
speaker_durations.get(speaker, 0). -/
def assoc_val : List (String × ℚ) → String → ℚ
  | [], _ => 0
  | (l, v) :: rest, label => if l = label then v else assoc_val rest label

theorem turn_overlap_nonneg (t : DiarizationTurn) (s e : ℚ) :
    0 ≤ turn_overlap t s e := by
  rw [turn_overlap_eq]
  exact le_max_left 0 _

theorem total_overlap_cons (t : DiarizationTurn)
    (rest : List DiarizationTurn) (label : String) (s e : ℚ) :
    total_overlap (t :: rest) label s e =
      (if t.speaker_label = label then turn_overlap t s e else 0) +
        total_overlap rest label s e := rfl

theorem pick_max_none (p : String × ℚ) : pick_max none p = some p := rfl

theorem pick_max_some (b p : String × ℚ) :
    pick_max (some b) p = if b.2 < p.2 then some p else some b := rfl

theorem total_overlap_nonneg (turns : List DiarizationTurn) (label : String)
    (s e : ℚ) : 0 ≤ total_overlap turns label s e := by
  induction turns with
  | nil => exact le_refl 0
  | cons t rest ih =>
    unfold total_overlap
    refine add_nonneg ?_ ih
    split
    · exact turn_overlap_nonneg t s e
    · exact le_refl 0

theorem assoc_val_add_duration (acc : List (String × ℚ)) (label x : String)
    (d : ℚ) :
    assoc_val (add_duration acc label d) x =
      assoc_val acc x + (if label = x then d else 0) := by
  induction acc with
  | nil =>
    unfold add_duration assoc_val
    rw [zero_add]
    split <;> rfl
  | cons p rest ih =>
    obtain ⟨l, v⟩ := p
    unfold add_duration
    by_cases h1 : l = label
    · subst h1
      rw [if_pos rfl]
      unfold assoc_val
      by_cases h2 : l = x
      · rw [if_pos h2, if_pos h2, if_pos h2]
      · rw [if_neg h2, if_neg h2, if_neg h2, add_zero]
    · rw [if_neg h1]
      unfold assoc_val
      by_cases h2 : l = x
      · rw [if_pos h2, if_pos h2]
        have hlx : ¬ label = x := by
          intro he
          exact h1 (h2.trans he.symm)
        rw [if_neg hlx, add_zero]
      · rw [if_neg h2, if_neg h2]
        exact ih

theorem assoc_val_foldl (s e : ℚ) (turns : List DiarizationTurn) :
    ∀ (acc : List (String × ℚ)) (label : String),
      assoc_val (turns.foldl (duration_step s e) acc) label =
        assoc_val acc label + total_overlap turns label s e := by
  induction turns with
  | nil =>
    intro acc label
    unfold total_overlap
    rw [List.foldl_nil, add_zero]
  | cons t rest ih =>
    intro acc label
    rw [List.foldl_cons, ih, total_overlap_cons]
    unfold duration_step
    by_cases h : 0 < turn_overlap t s e
    · rw [if_pos h, assoc_val_add_duration]
      by_cases h2 : t.speaker_label = label
      · rw [if_pos h2]
        ring
      · rw [if_neg h2]
        ring
    · rw [if_neg h]
      have h0 : turn_overlap t s e = 0 :=
        le_antisymm (not_lt.mp h) (turn_overlap_nonneg t s e)
      by_cases h2 : t.speaker_label = label
      · rw [if_pos h2, h0]
        ring
      · rw [if_neg h2]
        ring

theorem assoc_val_zero_or_mem (l : List (String × ℚ)) (label : String) :
    assoc_val l label = 0 ∨ (label, assoc_val l label) ∈ l := by
  induction l with
  | nil => exact Or.inl rfl
  | cons p rest ih =>
    obtain ⟨k, v⟩ := p
    unfold assoc_val
    by_cases h : k = label
    · subst h
      rw [if_pos rfl]
      exact Or.inr (List.mem_cons_self _ _)
    · rw [if_neg h]
      rcases ih with h0 | hm
      · exact Or.inl h0
      · exact Or.inr (List.mem_cons_of_mem _ hm)

theorem mem_add_duration (acc : List (String × ℚ)) (label : String) (d : ℚ)
    (p : String × ℚ) (hp : p ∈ add_duration acc label d) :
    p ∈ acc ∨ p.1 = label := by
  induction acc with
  | nil =>
    unfold add_duration at hp
    rcases List.mem_singleton.mp hp with rfl
    exact Or.inr rfl
  | cons q rest ih =>
    obtain ⟨l, v⟩ := q
    unfold add_duration at hp
    by_cases h : l = label
    · rw [if_pos h] at hp
      rcases List.mem_cons.mp hp with rfl | hr
      · exact Or.inr h
      · exact Or.inl (List.mem_cons_of_mem _ hr)
    · rw [if_neg h] at hp
      rcases List.mem_cons.mp hp with rfl | hr
      · exact Or.inl (List.mem_cons_self _ _)
      · rcases ih hr with h1 | h1
        · exact Or.inl (List.mem_cons_of_mem _ h1)
        · exact Or.inr h1

theorem add_duration_ne_nil (acc : List (String × ℚ)) (label : String)
    (d : ℚ) : add_duration acc label d ≠ [] := by
  cases acc with
  | nil => exact List.cons_ne_nil _ _
  | cons q rest =>
    obtain ⟨l, v⟩ := q
    unfold add_duration
    split
    · exact List.cons_ne_nil _ _
    · exact List.cons_ne_nil _ _

theorem nodup_keys_add_duration (acc : List (String × ℚ)) (label : String)
    (d : ℚ) (h : (acc.map Prod.fst).Nodup) :
    ((add_duration acc label d).map Prod.fst).Nodup := by
  induction acc with
  | nil =>
    unfold add_duration
    simp
  | cons q rest ih =>
    obtain ⟨l, v⟩ := q
    simp only [List.map_cons, List.nodup_cons] at h
    unfold add_duration
    by_cases hl : l = label
    · rw [if_pos hl]
      simp only [List.map_cons, List.nodup_cons]
      exact h
    · rw [if_neg hl]
      simp only [List.map_cons, List.nodup_cons]
      refine ⟨?_, ih h.2⟩
      intro hmem
      obtain ⟨p, hp, hpl⟩ := List.mem_map.mp hmem
      rcases mem_add_duration rest label d p hp with h1 | h1
      · exact h.1 (hpl ▸ List.mem_map_of_mem Prod.fst h1)
      · exact hl (by rw [← hpl, h1])

theorem nodup_keys_speaker_durations (s e : ℚ)
    (turns : List DiarizationTurn) :
    ∀ acc : List (String × ℚ), (acc.map Prod.fst).Nodup →
      ((turns.foldl (duration_step s e) acc).map Prod.fst).Nodup := by
  induction turns with
  | nil =>
    intro acc h
    exact h
  | cons t rest ih =>
    intro acc h
    rw [List.foldl_cons]
    apply ih
    unfold duration_step
    split
    · exact nodup_keys_add_duration acc t.speaker_label _ h
    · exact h

theorem assoc_val_eq_of_mem_nodup (l : List (String × ℚ)) (lab : String)
    (v : ℚ) (hnd : (l.map Prod.fst).Nodup) (hm : (lab, v) ∈ l) :
    assoc_val l lab = v := by
  induction l with
  | nil => cases hm
  | cons q rest ih =>
    obtain ⟨k, w⟩ := q
    simp only [List.map_cons, List.nodup_cons] at hnd
    unfold assoc_val
    rcases List.mem_cons.mp hm with heq | hr
    · have hk : k = lab := (congrArg Prod.fst heq).symm
      have hv : w = v := (congrArg Prod.snd heq).symm
      rw [if_pos hk, hv]
    · by_cases hk : k = lab
      · exfalso
        apply hnd.1
        rw [hk]
        exact List.mem_map_of_mem Prod.fst hr
      · rw [if_neg hk]
        exact ih hnd.2 hr

theorem foldl_pick_max_some (l : List (String × ℚ)) (b : String × ℚ) :
    ∃ p, l.foldl pick_max (some b) = some p ∧ (p = b ∨ p ∈ l) ∧
      b.2 ≤ p.2 ∧ ∀ q ∈ l, q.2 ≤ p.2 := by
  induction l generalizing b with
  | nil =>
    exact ⟨b, rfl, Or.inl rfl, le_refl _, by intro q hq; cases hq⟩
  | cons x rest ih =>
    rw [List.foldl_cons, pick_max_some]
    by_cases h : b.2 < x.2
    · rw [if_pos h]
      obtain ⟨p, hp, hmem, hle, hall⟩ := ih x
      refine ⟨p, hp, ?_, le_of_lt (lt_of_lt_of_le h hle), ?_⟩
      · rcases hmem with h1 | h1
        · exact Or.inr (h1 ▸ List.mem_cons_self x rest)
        · exact Or.inr (List.mem_cons_of_mem _ h1)
      · intro q hq
        rcases List.mem_cons.mp hq with rfl | hq2
        · exact hle
        · exact hall q hq2
    · rw [if_neg h]
      obtain ⟨p, hp, hmem, hle, hall⟩ := ih b
      refine ⟨p, hp, ?_, hle, ?_⟩
      · rcases hmem with h1 | h1
        · exact Or.inl h1
        · exact Or.inr (List.mem_cons_of_mem _ h1)
      · intro q hq
        rcases List.mem_cons.mp hq with rfl | hq2
        · exact le_trans (not_lt.mp h) hle
        · exact hall q hq2

theorem first_max_label_spec (l : List (String × ℚ)) (p : String × ℚ)
    (h : first_max_label l = some p) :
    p ∈ l ∧ ∀ q ∈ l, q.2 ≤ p.2 := by
  cases l with
  | nil =>
    exact absurd h (by simp [first_max_label])
  | cons x rest =>
    unfold first_max_label at h
    rw [List.foldl_cons] at h
    have hstep : pick_max none x = some x := rfl
    rw [hstep] at h
    obtain ⟨p2, hp2, hmem, hle, hall⟩ := foldl_pick_max_some rest x
    rw [hp2] at h
    simp only [Option.some.injEq] at h
    subst h
    constructor
    · rcases hmem with h1 | h1
      · exact h1 ▸ List.mem_cons_self x rest
      · exact List.mem_cons_of_mem _ h1
    · intro q hq
      rcases List.mem_cons.mp hq with rfl | hq2
      · exact hle
      · exact hall q hq2

theorem first_max_label_of_ne_nil (l : List (String × ℚ)) (h : l ≠ []) :
    ∃ p, first_max_label l = some p := by
  cases l with
  | nil => exact absurd rfl h
  | cons x rest =>
    unfold first_max_label
    rw [List.foldl_cons]
    have hstep : pick_max none x = some x := rfl
    rw [hstep]
    obtain ⟨p, hp, _⟩ := foldl_pick_max_some rest x
    exact ⟨p, hp⟩

theorem foldl_duration_nil (s e : ℚ) (turns : List DiarizationTurn) :
    ∀ acc : List (String × ℚ), turns.foldl (duration_step s e) acc = [] →
      acc = [] ∧ ∀ t ∈ turns, ¬ 0 < turn_overlap t s e := by
  induction turns with
  | nil =>
    intro acc h
    exact ⟨h, by intro t ht; cases ht⟩
  | cons t rest ih =>
    intro acc h
    rw [List.foldl_cons] at h
    obtain ⟨h1, h2⟩ := ih _ h
    unfold duration_step at h1
    by_cases hp : 0 < turn_overlap t s e
    · rw [if_pos hp] at h1
      exact absurd h1 (add_duration_ne_nil acc t.speaker_label _)
    · rw [if_neg hp] at h1
      refine ⟨h1, ?_⟩
      intro t2 ht2
      rcases List.mem_cons.mp ht2 with rfl | htr
      · exact hp
      · exact h2 t2 htr

theorem foldl_duration_labels (s e : ℚ) (L : String)
    (turns : List DiarizationTurn) :
    ∀ acc : List (String × ℚ),
      (∀ t ∈ turns, 0 < turn_overlap t s e → t.speaker_label = L) →
      (∀ p ∈ acc, p.1 = L) →
      ∀ p ∈ turns.foldl (duration_step s e) acc, p.1 = L := by
  induction turns with
  | nil =>
    intro acc _ ha p hp
    exact ha p hp
  | cons t rest ih =>
    intro acc hturn ha
    rw [List.foldl_cons]
    apply ih
    · intro t2 ht2 hpos
      exact hturn t2 (List.mem_cons_of_mem _ ht2) hpos
    · intro p hp
      unfold duration_step at hp
      by_cases hpos : 0 < turn_overlap t s e
      · rw [if_pos hpos] at hp
        rcases mem_add_duration acc t.speaker_label _ p hp with h1 | h1
        · exact ha p h1
        · exact h1.trans (hturn t (List.mem_cons_self _ _) hpos)
      · rw [if_neg hpos] at hp
        exact ha p hp

/-- C6: counterexample. The segment (0, 2) is fully contained in exactly
one turn, the turn (0, 2) labelled SPEAKER_A — the turns (0, 1) and
(1, 2) do not contain it — yet with the two SPEAKER_B turns tiling the
segment the accumulated overlaps tie at 2 and Python max keeps the first
dict entry, so the matcher returns SPEAKER_B, not SPEAKER_A. -/
theorem match_speaker_containment_counterexample :
    match_speaker [⟨0, 1, "SPEAKER_B"⟩, ⟨0, 2, "SPEAKER_A"⟩,
        ⟨1, 2, "SPEAKER_B"⟩] 0 2 = some "SPEAKER_B" ∧
    ((0 : ℚ) ≤ 0 ∧ (2 : ℚ) ≤ 2 ∧ ¬ ((2 : ℚ) ≤ 1) ∧ ¬ ((1 : ℚ) ≤ 0)) := by
  have hB1 : turn_overlap ⟨0, 1, "SPEAKER_B"⟩ 0 2 = 1 := by
    rw [turn_overlap_eq]
    norm_num [min_def, max_def]
  have hA : turn_overlap ⟨0, 2, "SPEAKER_A"⟩ 0 2 = 2 := by
    rw [turn_overlap_eq]
    norm_num [min_def, max_def]
  have hB2 : turn_overlap ⟨1, 2, "SPEAKER_B"⟩ 0 2 = 1 := by
    rw [turn_overlap_eq]
    norm_num [min_def, max_def]
  have s1 : duration_step 0 2 [] ⟨0, 1, "SPEAKER_B"⟩ = [("SPEAKER_B", 1)] := by
    unfold duration_step
    rw [hB1, if_pos (by norm_num : (0 : ℚ) < 1)]
    rfl
  have s2 : duration_step 0 2 [("SPEAKER_B", 1)] ⟨0, 2, "SPEAKER_A"⟩ =
      [("SPEAKER_B", 1), ("SPEAKER_A", 2)] := by
    unfold duration_step
    rw [hA, if_pos (by norm_num : (0 : ℚ) < 2)]
    unfold add_duration
    rw [if_neg (by decide : ¬ ("SPEAKER_B" = "SPEAKER_A"))]
    rfl
  have s3 : duration_step 0 2 [("SPEAKER_B", 1), ("SPEAKER_A", 2)]
      ⟨1, 2, "SPEAKER_B"⟩ = [("SPEAKER_B", 2), ("SPEAKER_A", 2)] := by
    unfold duration_step
    rw [hB2, if_pos (by norm_num : (0 : ℚ) < 1)]
    unfold add_duration
    rw [if_pos rfl]
    norm_num
  have hsd : speaker_durations [⟨0, 1, "SPEAKER_B"⟩, ⟨0, 2, "SPEAKER_A"⟩,
      ⟨1, 2, "SPEAKER_B"⟩] 0 2 = [("SPEAKER_B", 2), ("SPEAKER_A", 2)] := by
    unfold speaker_durations
    rw [List.foldl_cons, s1, List.foldl_cons, s2, List.foldl_cons, s3,
      List.foldl_nil]
  have hfm : first_max_label [("SPEAKER_B", 2), ("SPEAKER_A", 2)] =
      some ("SPEAKER_B", 2) := by
    unfold first_max_label
    rw [List.foldl_cons, pick_max_none, List.foldl_cons, pick_max_some,
      List.foldl_nil]
    rw [if_neg (by norm_num : ¬ ((("SPEAKER_B", (2 : ℚ))).2 <
      (("SPEAKER_A", (2 : ℚ))).2))]
  refine ⟨?_, by norm_num⟩
  unfold match_speaker
  rw [hsd, hfm]
  rfl

/-- C6 (amended): the matcher returns none when diarization is
unavailable; a returned label always has maximal accumulated overlap,
each turn contributing max(0, min(turn.end, seg.end) - max(turn.start,
seg.start)), with ties broken in favour of the label first inserted into
the duration dict (the label whose first positively-overlapping turn
comes first in the turn list); and for a segment of positive length fully
contained in one turn the matcher returns that turn's label provided the
turns are pairwise non-overlapping. -/
theorem match_speaker_max_overlap (turns : List DiarizationTurn) (s e : ℚ) :
    match_speaker_opt none s e = none ∧
    (∀ lab, match_speaker turns s e = some lab →
      ∀ l, total_overlap turns l s e ≤ total_overlap turns lab s e) ∧
    (∀ T ∈ turns,
      (∀ t1 ∈ turns, ∀ t2 ∈ turns, t1 ≠ t2 →
        min t1.turn_end t2.turn_end ≤ max t1.turn_start t2.turn_start) →
      T.turn_start ≤ s → e ≤ T.turn_end → s < e →
      match_speaker turns s e = some T.speaker_label) := by
  have hassoc : ∀ l : String,
      assoc_val (speaker_durations turns s e) l = total_overlap turns l s e := by
    intro l
    unfold speaker_durations
    rw [assoc_val_foldl]
    exact zero_add _
  refine ⟨rfl, ?_, ?_⟩
  · intro lab h l
    unfold match_speaker at h
    cases hfm : first_max_label (speaker_durations turns s e) with
    | none =>
      rw [hfm] at h
      exact absurd h (by simp)
    | some p =>
      rw [hfm] at h
      simp only [Option.map_some', Option.some.injEq] at h
      obtain ⟨hmem, hall⟩ := first_max_label_spec _ p hfm
      have hnd : ((speaker_durations turns s e).map Prod.fst).Nodup :=
        nodup_keys_speaker_durations s e turns [] (by simp)
      have hpv : assoc_val (speaker_durations turns s e) p.1 = p.2 :=
        assoc_val_eq_of_mem_nodup _ p.1 p.2 hnd hmem
      have hlab : total_overlap turns lab s e = p.2 := by
        rw [← h, ← hassoc]
        exact hpv
      rw [hlab]
      rcases assoc_val_zero_or_mem (speaker_durations turns s e) l with h0 | hm
      · rw [← hassoc, h0, ← hpv, hassoc]
        exact total_overlap_nonneg turns p.1 s e
      · rw [← hassoc]
        exact hall _ hm
  · intro T hT hsep hTs hTe hse
    have hlab : ∀ t ∈ turns, 0 < turn_overlap t s e →
        t.speaker_label = T.speaker_label := by
      intro t ht hpos
      by_contra hne
      have htne : t ≠ T := fun hEq => hne (by rw [hEq])
      have hdis := hsep t ht T hT htne
      have h1 : min t.turn_end e ≤ min t.turn_end T.turn_end :=
        min_le_min (le_refl _) hTe
      have h2 : max t.turn_start T.turn_start ≤ max t.turn_start s :=
        max_le_max (le_refl _) hTs
      have hle : min t.turn_end e - max t.turn_start s ≤ 0 := by linarith
      have hz : turn_overlap t s e = 0 := by
        rw [turn_overlap_eq]
        exact max_eq_left hle
      rw [hz] at hpos
      exact lt_irrefl 0 hpos
    have hTpos : 0 < turn_overlap T s e := by
      rw [turn_overlap_eq]
      rw [min_eq_right hTe, max_eq_right hTs,
        max_eq_right (le_of_lt (sub_pos.mpr hse))]
      exact sub_pos.mpr hse
    have hne : speaker_durations turns s e ≠ [] := by
      intro h0
      obtain ⟨_, hall⟩ := foldl_duration_nil s e turns [] h0
      exact hall T hT hTpos
    obtain ⟨p, hp⟩ := first_max_label_of_ne_nil _ hne
    obtain ⟨hmem, _⟩ := first_max_label_spec _ p hp
    have hpl : p.1 = T.speaker_label :=
      foldl_duration_labels s e T.speaker_label turns [] hlab
        (by intro q hq; cases hq) p hmem
    unfold match_speaker
    rw [hp]
    simp [hpl]

/-- C6: witness — a segment of positive length contained in a single
turn, with the pairwise-non-overlap and containment hypotheses discharged
concretely. -/
theorem match_speaker_max_overlap_witness :
    match_speaker [⟨0, 5, "SPEAKER_X"⟩] 1 2 = some "SPEAKER_X" :=
  (match_speaker_max_overlap [⟨0, 5, "SPEAKER_X"⟩] 1 2).2.2
    ⟨0, 5, "SPEAKER_X"⟩ (List.mem_singleton_self _)
    (by
      intro t1 h1 t2 h2 hne
      rw [List.mem_singleton] at h1 h2
      exact absurd (h1.trans h2.symm) hne)
    (by norm_num) (by norm_num) (by norm_num)

/-- A faster-whisper segment as consumed by the conversion loop of
ASRService.transcribe (lines 243-288). -/
structure WhisperSeg where
  wstart : ℚ
  wend : ℚ
  wtext : String
  avg_logprob : ℚ
deriving DecidableEq

/-- Python str.strip(): drop leading and trailing whitespace. -/
def py_strip (text : String) : String :=
  ⟨((text.toList.dropWhile Char.isWhitespace).reverse.dropWhile
      Char.isWhitespace).reverse⟩

/-- The counter update of the gap heuristic (lines 272-273): a new
synthetic speaker when there is no previous kept segment or the gap since
its end exceeds 2 seconds. -/
def heuristic_counter (w : WhisperSeg) (acc_rev : List Segment)
    (counter : Nat) : Nat :=
  match acc_rev.head? with
  | none => counter + 1
  | some last => if 2 < w.wstart - last.end_time then counter + 1 else counter

/-- The conversion loop of ASRService.transcribe (lines 243-288), carrying
the kept segments in reverse and the heuristic speaker counter: the
matcher label when diarization ran, else the gap heuristic
(speaker_{counter % 4 + 1}) when speaker detection is enabled and
diarization is None; segments with non-positive duration are dropped. -/
def assign_loop (enable : Bool) (diar : Option (List DiarizationTurn)) :
    List WhisperSeg → List Segment → Nat → List Segment × Nat
  | [], acc_rev, counter => (acc_rev.reverse, counter)
  | w :: rest, acc_rev, counter =>
    if (match_speaker_opt diar w.wstart w.wend).isNone && enable &&
        diar.isNone then
      if w.wstart < w.wend then
        assign_loop enable diar rest
          (⟨w.wstart, w.wend, py_strip w.wtext,
            some ("speaker_" ++
              toString (heuristic_counter w acc_rev counter % 4 + 1)),
            w.avg_logprob⟩ :: acc_rev)
          (heuristic_counter w acc_rev counter)
      else assign_loop enable diar rest acc_rev
        (heuristic_counter w acc_rev counter)
    else
      if w.wstart < w.wend then
        assign_loop enable diar rest
          (⟨w.wstart, w.wend, py_strip w.wtext,
            match_speaker_opt diar w.wstart w.wend, w.avg_logprob⟩ :: acc_rev)
          counter
      else assign_loop enable diar rest acc_rev counter

/-- The segments produced by ASRService.transcribe from the whisper
segments, for a given diarization outcome. -/
def assign_speakers (enable : Bool) (diar : Option (List DiarizationTurn))
    (wsegs : List WhisperSeg) : List Segment :=
  (assign_loop enable diar wsegs [] 0).1

/-- The fixed pool of synthetic speaker slots of the gap heuristic:
speaker_{counter % 4 + 1}. -/
def speaker_pool : List String :=
  ["speaker_1", "speaker_2", "speaker_3", "speaker_4"]

theorem assign_heuristic_eval :
    assign_speakers true none [⟨0, 2, "hi", 0⟩] =
      [⟨0, 2, "hi", some "speaker_2", 0⟩] := rfl

/-- C8: counterexample. The Segment record carries no source tag: when
the diarization labels happen to collide with the heuristic pool — here a
turn labelled speaker_2 covering the whisper segment — the
diarization-backed output is byte-for-byte identical to the
heuristic-fallback output, so heuristic labels are not distinguishable
downstream. -/
theorem heuristic_label_indistinguishable_counterexample :
    assign_speakers true (some [⟨0, 2, "speaker_2"⟩]) [⟨0, 2, "hi", 0⟩] =
      assign_speakers true none [⟨0, 2, "hi", 0⟩] ∧
    assign_speakers true none [⟨0, 2, "hi", 0⟩] =
      [⟨0, 2, "hi", some "speaker_2", 0⟩] := by
  have hto : turn_overlap ⟨0, 2, "speaker_2"⟩ 0 2 = 2 := by
    rw [turn_overlap_eq]
    norm_num [min_def, max_def]
  have s1 : duration_step 0 2 [] ⟨0, 2, "speaker_2"⟩ = [("speaker_2", 2)] := by
    unfold duration_step
    rw [hto, if_pos (by norm_num : (0 : ℚ) < 2)]
    rfl
  have hsd : speaker_durations [⟨0, 2, "speaker_2"⟩] 0 2 =
      [("speaker_2", 2)] := by
    unfold speaker_durations
    rw [List.foldl_cons, s1, List.foldl_nil]
  have hopt : match_speaker_opt (some [⟨0, 2, "speaker_2"⟩]) 0 2 =
      some "speaker_2" := by
    show match_speaker [⟨0, 2, "speaker_2"⟩] 0 2 = some "speaker_2"
    unfold match_speaker
    rw [hsd]
    rfl
  have hdiar : assign_speakers true (some [⟨0, 2, "speaker_2"⟩])
      [⟨0, 2, "hi", 0⟩] = [⟨0, 2, "hi", some "speaker_2", 0⟩] := by
    unfold assign_speakers assign_loop
    rw [hopt]
    rw [if_neg (by decide), if_pos (by norm_num : (0 : ℚ) < 2)]
    rfl
  exact ⟨by rw [hdiar, assign_heuristic_eval], assign_heuristic_eval⟩

/-- C8 (amended): the gap-heuristic labels are confined to the fixed pool
speaker_1 ... speaker_4 and are carried in the same untagged speaker_id
field as diarization labels; no source tag exists on the segment, so the
two sources are distinguishable only insofar as diarization labels avoid
that naming scheme. -/
theorem heuristic_labels_fixed_pool (wsegs : List WhisperSeg) :
    ∀ seg ∈ assign_speakers true none wsegs,
      ∃ l ∈ speaker_pool, seg.speaker_id = some l := by
  suffices h : ∀ (ws : List WhisperSeg) (acc : List Segment) (c : Nat),
      (∀ s ∈ acc, ∃ l ∈ speaker_pool, s.speaker_id = some l) →
      ∀ s ∈ (assign_loop true none ws acc c).1,
        ∃ l ∈ speaker_pool, s.speaker_id = some l by
    intro seg hseg
    exact h wsegs [] 0 (by intro s hs; cases hs) seg hseg
  intro ws
  induction ws with
  | nil =>
    intro acc c hacc s hs
    have hred : (assign_loop true none [] acc c).1 = acc.reverse := rfl
    rw [hred, List.mem_reverse] at hs
    exact hacc s hs
  | cons w rest ih =>
    intro acc c hacc s hs
    have hred : assign_loop true none (w :: rest) acc c =
        if w.wstart < w.wend then
          assign_loop true none rest (⟨w.wstart, w.wend, py_strip w.wtext,
            some ("speaker_" ++
              toString (heuristic_counter w acc c % 4 + 1)),
            w.avg_logprob⟩ :: acc) (heuristic_counter w acc c)
        else assign_loop true none rest acc (heuristic_counter w acc c) := rfl
    rw [hred] at hs
    by_cases hw : w.wstart < w.wend
    · rw [if_pos hw] at hs
      refine ih _ _ ?_ s hs
      intro s2 hs2
      rcases List.mem_cons.mp hs2 with rfl | h2
      · refine ⟨"speaker_" ++ toString (heuristic_counter w acc c % 4 + 1),
          ?_, rfl⟩
        have h4 : heuristic_counter w acc c % 4 < 4 :=
          Nat.mod_lt _ (by norm_num)
        rcases (by omega : heuristic_counter w acc c % 4 = 0 ∨
            heuristic_counter w acc c % 4 = 1 ∨
            heuristic_counter w acc c % 4 = 2 ∨
            heuristic_counter w acc c % 4 = 3) with h | h | h | h <;>
          rw [h] <;> decide
      · exact hacc s2 h2
    · rw [if_neg hw] at hs
      exact ih _ _ hacc s hs

/-- C8: witness — the heuristic run on one whisper segment yields a label
from the fixed pool. -/
theorem heuristic_labels_fixed_pool_witness :
    ∃ l ∈ speaker_pool,
      (Segment.mk 0 2 "hi" (some "speaker_2") 0).speaker_id = some l :=
  heuristic_labels_fixed_pool [⟨0, 2, "hi", 0⟩]
    ⟨0, 2, "hi", some "speaker_2", 0⟩
    (by rw [assign_heuristic_eval]; exact List.mem_singleton_self _)

/-- The stage outcomes consumed by DubbingService.create_dubbed_video
(src/services/dubbing_service.py, lines 80-157): each stage either raises
(error message) or succeeds with an output value and the temporary files
it registered with the services during the call. -/
structure DubStages where
  extract : Except String (String × List String)
  synthesize : Except String (List TTSClip × List String)
  prepare : Except String (String × List String)
  mix : Except String (String × List String)
  mux : Except String (String × List String)

/-- The except clause at lines 155-157: every exception inside the try is
re-raised as RuntimeError with this fixed prefix and the underlying
message; nothing else is added and no cleanup is performed there. -/
def wrap_dubbing_error (e : String) : String :=
  "Failed to create dubbed video: " ++ e

/-- DubbingService.create_dubbed_video: the input checks before the try
block (unwrapped), then the stage sequence; the second component is the
set of temporary files registered so far — on the error path it is
returned as-is, since the except clause does not delete anything. -/
def create_dubbed_video (videoExists : Bool) (segments : List Segment)
    (st : DubStages) (output_path : String) :
    Except String String × List String :=
  if videoExists = false then (.error "Video file not found", [])
  else if segments = [] then (.error "No translated segments provided", [])
  else
    match st.extract with
    | .error e => (.error (wrap_dubbing_error e), [])
    | .ok (_, t1) =>
      match st.synthesize with
      | .error e => (.error (wrap_dubbing_error e), t1)
      | .ok (_, t2) =>
        match st.prepare with
        | .error e => (.error (wrap_dubbing_error e), t1 ++ t2)
        | .ok (_, t3) =>
          match st.mix with
          | .error e => (.error (wrap_dubbing_error e), t1 ++ t2 ++ t3)
          | .ok (_, t4) =>
            match st.mux with
            | .error e => (.error (wrap_dubbing_error e), t1 ++ t2 ++ t3 ++ t4)
            | .ok (_, t5) => (.ok output_path, t1 ++ t2 ++ t3 ++ t4 ++ t5)

/-- DubbingService.cleanup (lines 501-506): a separate method, invoked by
callers (e.g. the CLI in a finally block), that deletes every tracked
temporary file. -/
def dubbing_cleanup (temp_files : List String) : List String := []

/-- C7: counterexample. With audio extraction, synthesis and background
preparation succeeding and mixing failing, the orchestrator propagates
the wrapped error while the three temporary files created by the earlier
stages are still present — they are not deleted before propagating, and
the wrapper names no stage. -/
theorem orchestrator_no_cleanup_counterexample :
    create_dubbed_video true [⟨0, 1, "hi", none, 0⟩]
      ⟨.ok ("video_audio.wav", ["video_audio.wav"]),
        .ok ([], ["clip0.wav"]),
        .ok ("ducked_audio.wav", ["ducked_audio.wav"]),
        .error "boom", .ok ("final.mp4", [])⟩ "out.mp4" =
      (.error "Failed to create dubbed video: boom",
        ["video_audio.wav", "clip0.wav", "ducked_audio.wav"]) ∧
    ["video_audio.wav", "clip0.wav", "ducked_audio.wav"] ≠ ([] : List String) :=
  ⟨rfl, by simp⟩

/-- C7 (amended): on any stage failure the orchestrator surfaces one
wrapped error carrying the constant prefix and the underlying message —
without naming the failing stage — and leaves every temporary file
registered by the completed stages in place; deletion happens only in the
separate cleanup method that callers must invoke. -/
theorem orchestrator_wrapped_error_keeps_temps (segments : List Segment)
    (st : DubStages) (output_path : String) (hseg : segments ≠ []) :
    (∀ e, st.extract = .error e →
      create_dubbed_video true segments st output_path =
        (.error (wrap_dubbing_error e), [])) ∧
    (∀ e a t1, st.extract = .ok (a, t1) → st.synthesize = .error e →
      create_dubbed_video true segments st output_path =
        (.error (wrap_dubbing_error e), t1)) ∧
    (∀ e a t1 c t2, st.extract = .ok (a, t1) → st.synthesize = .ok (c, t2) →
      st.prepare = .error e →
      create_dubbed_video true segments st output_path =
        (.error (wrap_dubbing_error e), t1 ++ t2)) ∧
    (∀ e a t1 c t2 b t3, st.extract = .ok (a, t1) →
      st.synthesize = .ok (c, t2) → st.prepare = .ok (b, t3) →
      st.mix = .error e →
      create_dubbed_video true segments st output_path =
        (.error (wrap_dubbing_error e), t1 ++ t2 ++ t3)) ∧
    (∀ e a t1 c t2 b t3 m t4, st.extract = .ok (a, t1) →
      st.synthesize = .ok (c, t2) → st.prepare = .ok (b, t3) →
      st.mix = .ok (m, t4) → st.mux = .error e →
      create_dubbed_video true segments st output_path =
        (.error (wrap_dubbing_error e), t1 ++ t2 ++ t3 ++ t4)) ∧
    (∀ temp_files : List String, dubbing_cleanup temp_files = []) := by
  have hv : ¬ (true = false) := by simp
  refine ⟨?_, ?_, ?_, ?_, ?_, fun _ => rfl⟩
  · intro e h1
    unfold create_dubbed_video
    rw [if_neg hv, if_neg hseg, h1]
  · intro e a t1 h1 h2
    unfold create_dubbed_video
    rw [if_neg hv, if_neg hseg, h1, h2]
  · intro e a t1 c t2 h1 h2 h3
    unfold create_dubbed_video
    rw [if_neg hv, if_neg hseg, h1, h2, h3]
  · intro e a t1 c t2 b t3 h1 h2 h3 h4
    unfold create_dubbed_video
    rw [if_neg hv, if_neg hseg, h1, h2, h3, h4]
  · intro e a t1 c t2 b t3 m t4 h1 h2 h3 h4 h5
    unfold create_dubbed_video
    rw [if_neg hv, if_neg hseg, h1, h2, h3, h4, h5]

/-- C7: witness — a muxing failure after four successful stages keeps the
four temp-file groups and wraps the message once. -/
theorem orchestrator_wrapped_error_keeps_temps_witness :
    create_dubbed_video true [⟨0, 1, "hello", none, 0⟩]
      ⟨.ok ("a.wav", ["a.wav"]), .ok ([], []), .ok ("b.wav", ["b.wav"]),
        .ok ("m.wav", ["mixed_audio.wav"]), .error "mux failed"⟩ "out.mp4" =
      (.error (wrap_dubbing_error "mux failed"),
        ["a.wav"] ++ [] ++ ["b.wav"] ++ ["mixed_audio.wav"]) :=
  (orchestrator_wrapped_error_keeps_temps [⟨0, 1, "hello", none, 0⟩]
      ⟨.ok ("a.wav", ["a.wav"]), .ok ([], []), .ok ("b.wav", ["b.wav"]),
        .ok ("m.wav", ["mixed_audio.wav"]), .error "mux failed"⟩ "out.mp4"
      (List.cons_ne_nil _ _)).2.2.2.2.1 "mux failed" "a.wav" ["a.wav"] []
    [] "b.wav" ["b.wav"] "m.wav" ["mixed_audio.wav"] rfl rfl rfl rfl rfl

end Mockingbird
